import Mathlib

/-!
Verification of the gl-slideshow program (src/slideshow.py) against its
natural-language specification.

The embedding below translates the Python source into Lean:
* pure string manipulation (shader assembly, extension filtering) becomes
  functions on String and List Char;
* filesystem listings become explicit `List String` arguments;
* the GPU driver (compile status, info logs) becomes an explicit oracle record;
* wall-clock reads (time.time()) become explicit lists of rational samples;
* the render loop's GL calls become an explicit event trace.
-/

namespace Slideshow

/-! ## Asset discovery (slideshow.py lines 52-64) -/

/-- Recognized image extensions, from the tuple `img_exts` on line 53. -/
def img_exts : List String := [".jpg", ".jpeg", ".png", ".bmp", ".tiff", ".gif"]

/-- Lowercasing a filename, modelling Python's `f.lower()` on line 54/61
character by character. -/
def lowerName (f : String) : List Char := f.data.map Char.toLower

/-- Python's `f.lower().endswith(ext)`: the extension is a suffix of the
lowercased filename. -/
def hasSuffix (ext : String) (f : String) : Bool :=
  ext.data.isSuffixOf (lowerName f)

/-- The filter predicate of line 54: the lowercased name ends with one of the
recognized image extensions. -/
def isImageFile (f : String) : Bool := img_exts.any (fun e => hasSuffix e f)

/-- The filter predicate of line 61: the lowercased name ends with ".glsl". -/
def isTransitionFile (f : String) : Bool := hasSuffix ".glsl" f

/-- Python's os.path.join on a POSIX system, as used on lines 57 and 64. -/
def joinPath (folder f : String) : String := folder ++ "/" ++ f

/-- Lexicographic comparison of character lists by code point, the order
Python's `sorted` uses on strings (line 57). -/
def lexLe : List Char → List Char → Bool
  | [], _ => true
  | _ :: _, [] => false
  | a :: as, b :: bs =>
    if a.toNat < b.toNat then true
    else if b.toNat < a.toNat then false
    else lexLe as bs

/-- Lexicographic comparison of strings by code point. -/
def strLe (a b : String) : Bool := lexLe a.data b.data

/-- Python's `sorted(files)` on line 57: a stable sort of the filename list
under the lexicographic order. -/
def sortNames (files : List String) : List String :=
  List.insertionSort (fun a b => strLe a b = true) files

/-- Embedding of `get_images` (lines 52-57): filter the directory listing by
image extension, fail when fewer than two files match, otherwise return the
sorted matches joined with the folder path. -/
def get_images (folder : String) (listing : List String) :
    Except String (List String) :=
  if (listing.filter isImageFile).length < 2 then
    Except.error "not enough images in the folder"
  else Except.ok ((sortNames (listing.filter isImageFile)).map (joinPath folder))

/-- Embedding of `get_transitions` (lines 60-64): filter the directory listing
by the ".glsl" extension, fail when nothing matches, otherwise return the
matches joined with the folder path in listing order (no sort). -/
def get_transitions (folder : String) (listing : List String) :
    Except String (List String) :=
  if (listing.filter isTransitionFile).length = 0 then
    Except.error ("no fragment .glsl transitions found in folder: " ++ folder)
  else Except.ok ((listing.filter isTransitionFile).map (joinPath folder))

/-! ## Shader source assembly (line 145) -/

/-- Embedding of line 145, `fragment_src = header_src + fragment_src +
footer_src`: plain string concatenation of header, effect body, and footer. -/
def assemble (header body footer : String) : String := header ++ body ++ footer

/-! ## GPU program creation (lines 29-49)

The GL driver is modelled as an oracle recording, for each of the three
driver-side checks the code performs, whether the status query returns
GL_TRUE and what the corresponding info log holds. -/

/-- Driver-side outcome of one `create_program` call: the two
GL_COMPILE_STATUS queries (lines 33), the GL_LINK_STATUS query (line 45),
and the info logs the driver would return for each. -/
structure GLOracle where
  vertexStatusOk : Bool
  vertexLog : String
  fragmentStatusOk : Bool
  fragmentLog : String
  linkStatusOk : Bool
  linkLog : String

/-- Embedding of `compile_shader` (lines 29-35): when the compile status is
not GL_TRUE, raise carrying the driver's info log verbatim; otherwise return
the shader handle (modelled as Unit). -/
def compile_shader (statusOk : Bool) (infoLog : String) : Except String Unit :=
  if statusOk then Except.ok () else Except.error infoLog

/-- Embedding of `create_program` (lines 38-49): compile the vertex stage,
then the fragment stage, then link; each failure raises with the driver's
log for that step, in that order. -/
def create_program (gl : GLOracle) : Except String Unit :=
  match compile_shader gl.vertexStatusOk gl.vertexLog with
  | Except.error e => Except.error e
  | Except.ok _ =>
    match compile_shader gl.fragmentStatusOk gl.fragmentLog with
    | Except.error e => Except.error e
    | Except.ok _ =>
      if gl.linkStatusOk then Except.ok () else Except.error gl.linkLog

/-- Lines 141-147 of the cycle body: the effect's file path is printed to
standard output (line 143) and then the program is compiled.  The first
component is the list of lines printed, the second the compile outcome. -/
def cycleCompileOutput (fragmentPath : String) (gl : GLOracle) :
    List String × Except String Unit :=
  ([fragmentPath], create_program gl)

/-! ## Sequencer state (lines 135-142 and 176) -/

/-- The two rotation indices of the render loop, `image_index` and
`trans_index` (lines 135-136). -/
structure SlideState where
  imageIndex : Nat
  transIndex : Nat
deriving DecidableEq

/-- What one cycle renders: textures `image_index` and `(image_index + 1) %
len(textures)` with effect `trans_index` (lines 139-141). -/
structure CycleRender where
  fromIdx : Nat
  toIdx : Nat
  effectIdx : Nat
deriving DecidableEq

/-- The pair and effect selected at the top of the loop body from the current
state (lines 139-141), before any index is mutated. -/
def cycleRender (M : Nat) (s : SlideState) : CycleRender :=
  ⟨s.imageIndex, (s.imageIndex + 1) % M, s.transIndex⟩

/-- The state right after line 142, `trans_index = (trans_index+1) %
len(transition_paths)`, which runs before the hold and transition phases. -/
def afterSelect (N : Nat) (s : SlideState) : SlideState :=
  ⟨s.imageIndex, (s.transIndex + 1) % N⟩

/-- The state after the whole loop body: line 142 followed by line 176,
`image_index = (image_index + 1) % len(textures)`. -/
def afterCycle (M N : Nat) (s : SlideState) : SlideState :=
  let s1 := afterSelect N s
  ⟨(s1.imageIndex + 1) % M, s1.transIndex⟩

/-- The sequencer state after K completed cycles, starting from the
initialization `image_index = 0`, `trans_index = 0` (lines 135-136). -/
def stateAfterCycles (M N : Nat) : Nat → SlideState
  | 0 => ⟨0, 0⟩
  | K + 1 => afterCycle M N (stateAfterCycles M N K)

/-! ## Transition player (lines 158-174)

Clock reads of time.time() are modelled as explicit rational samples: the
phase-entry sample (line 163) plus one sample per loop iteration (line 166).
A finite sample list models the run; the loop also stops when the
window-close signal cuts the phase short, which corresponds to the list
ending before progress reaches 1. -/

/-- The progress computed on line 167: `min(elapsed / transition_duration,
1.0)` with `elapsed = t - start_time`. -/
def transitionProgress (start dur t : ℚ) : ℚ := min ((t - start) / dur) 1

/-- The sequence of progress values drawn by the transition loop (lines
165-171): each iteration samples the clock, computes the clamped progress,
draws it, and exits right after drawing once progress has reached 1. -/
def transitionFrames (start dur : ℚ) : List ℚ → List ℚ
  | [] => []
  | t :: ts =>
    if 1 ≤ transitionProgress start dur t then [transitionProgress start dur t]
    else transitionProgress start dur t :: transitionFrames start dur ts

/-- Modelled from the spec: progress as the specification words it,
clamp(elapsedTime / transitionDuration, 0.0, 1.0), with an explicit lower
clamp at 0 that the code does not perform. -/
def clampProgress (start dur t : ℚ) : ℚ := max 0 (min ((t - start) / dur) 1)

/-- Modelled from the spec: the same draw loop as transitionFrames but
computing the spec's doubly-clamped progress, for comparison with the code's
single-sided min. -/
def specClampFrames (start dur : ℚ) : List ℚ → List ℚ
  | [] => []
  | t :: ts =>
    if 1 ≤ clampProgress start dur t then [clampProgress start dur t]
    else clampProgress start dur t :: specClampFrames start dur ts

/-- The hold-phase draws (lines 158-160): while the clock sample is within
`pause_duration` of the phase-entry sample, a frame with progress 0.0 is
drawn; the first sample at or past the deadline ends the phase. -/
def holdFrames (start pause : ℚ) : List ℚ → List ℚ
  | [] => []
  | t :: ts => if t - start < pause then (0 : ℚ) :: holdFrames start pause ts else []

/-- Lines 163-174: the transition loop tallies one count per frame drawn
(line 169) and, when the loop ends, reports `frame_count /
transition_duration` (line 173).  Returns (frame tally, reported fps). -/
def transitionReport (start dur : ℚ) (samples : List ℚ) : Nat × ℚ :=
  ((transitionFrames start dur samples).length,
   ((transitionFrames start dur samples).length : ℚ) / dur)

/-- One full hold+transition cycle's draws and report (lines 158-174): the
drawn progress values in order, the transition frame tally, and the fps value
printed on line 174. -/
def cycleDraws (holdStart pause transStart dur : ℚ)
    (holdSamples transSamples : List ℚ) : List ℚ × Nat × ℚ :=
  (holdFrames holdStart pause holdSamples ++ transitionFrames transStart dur transSamples,
   (transitionReport transStart dur transSamples).1,
   (transitionReport transStart dur transSamples).2)

/-! ## GL program lifecycle trace (lines 147-177)

Each executed loop iteration k produces, in order: one glCreateProgram /
link (line 147), the hold-phase and transition-phase draw calls that use
that program (lines 160 and 168), and one glDeleteProgram (line 177).  The
numbers of hold and transition frames actually drawn are arbitrary — a
window-close signal observed mid-phase merely makes them smaller (possibly
zero), since both inner loops re-check the signal every frame while the
trailing glDeleteProgram is unconditional. -/

/-- A GL resource event of the render loop, tagged with the cycle that owns
the program. -/
inductive GlEvent where
  | compileProgram (cycle : Nat)
  | drawCall (cycle : Nat)
  | destroyProgram (cycle : Nat)
deriving DecidableEq

/-- Position of an event inside the lifecycle of its cycle: compile, then
draws, then destroy; later cycles rank strictly higher. -/
def GlEvent.rank : GlEvent → Nat
  | GlEvent.compileProgram k => 3 * k
  | GlEvent.drawCall k => 3 * k + 1
  | GlEvent.destroyProgram k => 3 * k + 2

/-- The events of loop iteration k when h hold frames and t transition frames
are drawn: compile (line 147), the draws (lines 160 and 168), destroy
(line 177). -/
def cycleEvents (k h t : Nat) : List GlEvent :=
  (GlEvent.compileProgram k ::
    (List.replicate h (GlEvent.drawCall k) ++ List.replicate t (GlEvent.drawCall k))) ++
  [GlEvent.destroyProgram k]

/-- The event trace of the first c executed loop iterations, where h k and
t k give the hold and transition frame counts of iteration k. -/
def runEvents (h t : Nat → Nat) : Nat → List GlEvent
  | 0 => []
  | c + 1 => runEvents h t c ++ cycleEvents c (h c) (t c)

/-! ## Sequencer rotation lemma -/

/-- Closed form of the sequencer state: after K completed cycles the image
index is K mod M and the transition index is K mod N. -/
theorem stateAfterCycles_eq (M N : Nat) :
    ∀ K, stateAfterCycles M N K = ⟨K % M, K % N⟩
  | 0 => by simp [stateAfterCycles]
  | K + 1 => by
    rw [stateAfterCycles, stateAfterCycles_eq M N K]
    simp [afterCycle, afterSelect, Nat.mod_add_mod]

/-- C1: for every transition-effect count N ≥ 1 and image count M ≥ 2, after
K completed hold+transition cycles the image index is K mod M and the
transition index is K mod N, and cycle K renders the pair
(K mod M, (K+1) mod M) with effect K mod N. -/
theorem C1_sequencer_rotation (M N K : Nat) (hM : 2 ≤ M) (hN : 1 ≤ N) :
    (stateAfterCycles M N K).imageIndex = K % M ∧
    (stateAfterCycles M N K).transIndex = K % N ∧
    cycleRender M (stateAfterCycles M N K) = ⟨K % M, (K + 1) % M, K % N⟩ := by
  rw [stateAfterCycles_eq]
  refine ⟨rfl, rfl, ?_⟩
  simp [cycleRender, Nat.mod_add_mod]

/-- Witness for C1 at the spec's end-to-end scenario (M = 3 images, N = 2
effects): after 4 completed cycles the state is (1, 0) and cycle 4 renders
pair (1, 2) with effect 0, repeating cycle 1's pairing. -/
theorem C1_sequencer_rotation_witness :
    (stateAfterCycles 3 2 4).imageIndex = 4 % 3 ∧
    (stateAfterCycles 3 2 4).transIndex = 4 % 2 ∧
    cycleRender 3 (stateAfterCycles 3 2 4) = ⟨4 % 3, (4 + 1) % 3, 4 % 2⟩ :=
  C1_sequencer_rotation 3 2 4 (by decide) (by decide)

/-- C8 counterexample: during cycle 0 (M = 3 images, N = 2 effects), right
after the cycle's effect has been selected and before the hold and
transition phases run — line 142 executes before lines 158-174 — the
sequencer state already differs from the cycle-start state: the transition
index has been incremented mid-cycle, contradicting the claim that both
indices change only after the full cycle completes. -/
theorem C8_counterexample :
    ¬ (afterSelect 2 (stateAfterCycles 3 2 0) = stateAfterCycles 3 2 0) := by
  decide

/-- C8 amended: the image index is incremented (mod M) only when the full
hold+transition cycle completes, staying unchanged during the cycle; the
transition index, however, is incremented (mod N) at the start of the cycle,
immediately after the cycle's effect is selected — the cycle still renders
with the pre-increment indices (pair (K mod M, (K+1) mod M), effect
K mod N). -/
theorem C8_index_increment_amended (M N K : Nat) (hM : 2 ≤ M) (hN : 1 ≤ N) :
    (afterSelect N (stateAfterCycles M N K)).imageIndex
      = (stateAfterCycles M N K).imageIndex ∧
    (afterSelect N (stateAfterCycles M N K)).transIndex = (K + 1) % N ∧
    cycleRender M (stateAfterCycles M N K) = ⟨K % M, (K + 1) % M, K % N⟩ ∧
    (afterCycle M N (stateAfterCycles M N K)).imageIndex = (K + 1) % M := by
  rw [stateAfterCycles_eq]
  refine ⟨rfl, ?_, ?_, ?_⟩
  · simp [afterSelect, Nat.mod_add_mod]
  · simp [cycleRender, Nat.mod_add_mod]
  · simp [afterCycle, afterSelect, Nat.mod_add_mod]

/-- Witness for the amended C8 at M = 3, N = 2, K = 0. -/
theorem C8_index_increment_amended_witness :
    (afterSelect 2 (stateAfterCycles 3 2 0)).imageIndex
      = (stateAfterCycles 3 2 0).imageIndex ∧
    (afterSelect 2 (stateAfterCycles 3 2 0)).transIndex = (0 + 1) % 2 ∧
    cycleRender 3 (stateAfterCycles 3 2 0) = ⟨0 % 3, (0 + 1) % 3, 0 % 2⟩ ∧
    (afterCycle 3 2 (stateAfterCycles 3 2 0)).imageIndex = (0 + 1) % 3 :=
  C8_index_increment_amended 3 2 0 (by decide) (by decide)

/-! ## String helpers -/

/-- Two strings with the same character data are equal. -/
theorem string_data_inj {s t : String} (h : s.data = t.data) : s = t := by
  exact congrArg String.mk h

/-- Appending a fixed string on the left is injective. -/
theorem append_left_inj (p : String) {a b : String} (h : p ++ a = p ++ b) :
    a = b := by
  apply string_data_inj
  have hd := congrArg String.data h
  simp only [String.data_append] at hd
  exact List.append_cancel_left hd

/-- Appending a fixed string on the right is injective. -/
theorem append_right_inj (p : String) {a b : String} (h : a ++ p = b ++ p) :
    a = b := by
  apply string_data_inj
  have hd := congrArg String.data h
  simp only [String.data_append] at hd
  exact List.append_cancel_right hd

/-- C4: shader source assembly is the pure concatenation header ++ body ++
footer; it is deterministic — equal inputs give the identical string — and,
for a fixed header and footer, distinct bodies give distinct assembled
sources. -/
theorem C4_assembly_pure_injective (H F B₁ B₂ : String) (hne : B₁ ≠ B₂) :
    assemble H B₁ F = H ++ B₁ ++ F ∧
    assemble H B₁ F = assemble H B₁ F ∧
    assemble H B₁ F ≠ assemble H B₂ F := by
  refine ⟨rfl, rfl, fun h => hne ?_⟩
  unfold assemble at h
  exact append_left_inj H (append_right_inj F h)

/-- Witness for C4 on concrete header, bodies, and footer. -/
theorem C4_assembly_pure_injective_witness :
    assemble "H" "fade" "F" = "H" ++ "fade" ++ "F" ∧
    assemble "H" "fade" "F" = assemble "H" "fade" "F" ∧
    assemble "H" "fade" "F" ≠ assemble "H" "wipe" "F" :=
  C4_assembly_pure_injective "H" "F" "fade" "wipe" (by decide)

/-! ## Discovery error behaviour -/

/-- C6: image discovery fails if and only if fewer than two listing entries
match the recognized image extensions; transition discovery fails if and
only if no entry matches ".glsl" case-insensitively; and on success the
transitions are returned in directory-enumeration order (the listing order,
filtered, with no sorting). -/
theorem C6_discovery_errors (folder folder₂ : String)
    (listing listing₂ : List String) :
    ((∃ e, get_images folder listing = Except.error e) ↔
      (listing.filter isImageFile).length < 2) ∧
    ((∃ e, get_transitions folder₂ listing₂ = Except.error e) ↔
      (listing₂.filter isTransitionFile).length = 0) ∧
    ((listing₂.filter isTransitionFile).length ≠ 0 →
      get_transitions folder₂ listing₂ =
        Except.ok ((listing₂.filter isTransitionFile).map (joinPath folder₂))) := by
  refine ⟨?_, ?_, ?_⟩
  · unfold get_images
    split
    · simp_all
    · simp_all
  · unfold get_transitions
    split
    · simp_all
    · simp_all
  · intro hne
    unfold get_transitions
    split
    · omega
    · rfl

/-- Witness for C6: a listing with one image fails image discovery, a
listing with no shader files fails transition discovery, and a listing with
two shader files is returned in listing order. -/
theorem C6_discovery_errors_witness :
    (∃ e, get_images "oms-images" ["a.jpg", "notes.txt"] = Except.error e) ∧
    (∃ e, get_transitions "transitions" ["readme.md"] = Except.error e) ∧
    get_transitions "transitions" ["wipe.glsl", "fade.GLSL"] =
      Except.ok ((["wipe.glsl", "fade.GLSL"].filter isTransitionFile).map
        (joinPath "transitions")) :=
  ⟨(C6_discovery_errors "oms-images" "transitions" ["a.jpg", "notes.txt"]
      ["readme.md"]).1.mpr (by decide),
   (C6_discovery_errors "oms-images" "transitions" ["a.jpg", "notes.txt"]
      ["readme.md"]).2.1.mpr (by decide),
   (C6_discovery_errors "oms-images" "transitions" ["a.jpg", "notes.txt"]
      ["wipe.glsl", "fade.GLSL"]).2.2 (by decide)⟩

/-! ## Shader compile and link failures -/

/-- C7: when a shader stage's compile status is unsuccessful, program
creation fails with exactly that stage's driver log, verbatim; an
unsuccessful link status fails with the link log; and each cycle prints the
originating effect file path (line 143) before attempting compilation, so a
failure surfaces the pair of the effect path and the raw driver log. -/
theorem C7_shader_errors (path : String) (gl : GLOracle) :
    (gl.vertexStatusOk = false →
      create_program gl = Except.error gl.vertexLog) ∧
    (gl.vertexStatusOk = true → gl.fragmentStatusOk = false →
      create_program gl = Except.error gl.fragmentLog) ∧
    (gl.vertexStatusOk = true → gl.fragmentStatusOk = true →
      gl.linkStatusOk = false →
      create_program gl = Except.error gl.linkLog) ∧
    (cycleCompileOutput path gl).2 = create_program gl ∧
    path ∈ (cycleCompileOutput path gl).1 := by
  refine ⟨?_, ?_, ?_, rfl, ?_⟩
  · intro hv
    simp [create_program, compile_shader, hv]
  · intro hv hf
    simp [create_program, compile_shader, hv, hf]
  · intro hv hf hl
    simp [create_program, compile_shader, hv, hf, hl]
  · simp [cycleCompileOutput]

/-- Witness for C7: a failing fragment stage surfaces its raw log and the
printed output of the cycle contains the effect path. -/
theorem C7_shader_errors_witness :
    create_program ⟨true, "", false, "0:12: syntax error", true, ""⟩ =
      Except.error "0:12: syntax error" ∧
    "transitions/wipe.glsl" ∈
      (cycleCompileOutput "transitions/wipe.glsl"
        ⟨true, "", false, "0:12: syntax error", true, ""⟩).1 :=
  ⟨(C7_shader_errors "transitions/wipe.glsl"
      ⟨true, "", false, "0:12: syntax error", true, ""⟩).2.1 rfl rfl,
   (C7_shader_errors "transitions/wipe.glsl"
      ⟨true, "", false, "0:12: syntax error", true, ""⟩).2.2.2.2⟩

/-! ## Lexicographic order facts for the filename sort -/

/-- The lexicographic comparison is total. -/
theorem lexLe_total : ∀ a b : List Char, lexLe a b = true ∨ lexLe b a = true
  | [], _ => by left; rfl
  | _ :: _, [] => by right; rfl
  | a :: as, b :: bs => by
    by_cases hab : a.toNat < b.toNat
    · left
      simp [lexLe, hab]
    · by_cases hba : b.toNat < a.toNat
      · right
        simp [lexLe, hba]
      · rcases lexLe_total as bs with h | h
        · left
          simp [lexLe, hab, hba, h]
        · right
          simp [lexLe, hba, hab, h]

/-- The lexicographic comparison is transitive. -/
theorem lexLe_trans :
    ∀ a b c : List Char, lexLe a b = true → lexLe b c = true → lexLe a c = true
  | [], _, _ => by intro _ _; rfl
  | _ :: _, [], _ => by intro h _; simp [lexLe] at h
  | _ :: _, _ :: _, [] => by intro _ h; simp [lexLe] at h
  | a :: as, b :: bs, c :: cs => by
    intro hab hbc
    simp only [lexLe] at hab hbc ⊢
    by_cases h1 : a.toNat < b.toNat <;> by_cases h2 : b.toNat < c.toNat <;>
      simp [h1, h2] at hab hbc <;>
      [skip; skip; skip; skip] <;>
      first
      | (have hac : a.toNat < c.toNat := by omega
         simp [hac])
      | (by_cases hac : a.toNat < c.toNat
         · simp [hac]
         · have hca : ¬ c.toNat < a.toNat := by omega
           have heq : ¬ a.toNat < c.toNat := by omega
           rcases hab with ⟨hba, hab⟩
           rcases hbc with ⟨hcb, hbc⟩
           simp [heq, hca]
           exact lexLe_trans as bs cs hab hbc)

/-- Totality instance for the string sort relation. -/
instance : IsTotal String (fun a b => strLe a b = true) :=
  ⟨fun a b => lexLe_total a.data b.data⟩

/-- Transitivity instance for the string sort relation. -/
instance : IsTrans String (fun a b => strLe a b = true) :=
  ⟨fun a b c => lexLe_trans a.data b.data c.data⟩

/-- Joining a fixed folder is injective in the filename. -/
theorem joinPath_injective (folder : String) :
    Function.Injective (joinPath folder) := by
  intro a b h
  exact append_left_inj (folder ++ "/") h

/-- C5: on a duplicate-free directory listing with at least two files
matching a recognized image extension (case-insensitively), image discovery
succeeds with the matching filenames sorted lexicographically, joined with
the folder path; the result is deduplicated, has exactly the matching-file
count as length, contains exactly the matching files, and — the function
being pure — a second call on the same listing returns the same result. -/
theorem C5_image_discovery (folder : String) (listing : List String)
    (hnodup : listing.Nodup)
    (h2 : 2 ≤ (listing.filter isImageFile).length) :
    get_images folder listing =
      Except.ok ((sortNames (listing.filter isImageFile)).map (joinPath folder)) ∧
    List.Sorted (fun a b => strLe a b = true)
      (sortNames (listing.filter isImageFile)) ∧
    (sortNames (listing.filter isImageFile)).Perm (listing.filter isImageFile) ∧
    (sortNames (listing.filter isImageFile)).Nodup ∧
    ((sortNames (listing.filter isImageFile)).map (joinPath folder)).Nodup ∧
    ((sortNames (listing.filter isImageFile)).map (joinPath folder)).length
      = (listing.filter isImageFile).length ∧
    get_images folder listing = get_images folder listing := by
  have hperm : (sortNames (listing.filter isImageFile)).Perm
      (listing.filter isImageFile) :=
    List.perm_insertionSort _ _
  have hnd : (sortNames (listing.filter isImageFile)).Nodup :=
    hperm.symm.nodup (hnodup.filter _)
  refine ⟨?_, ?_, hperm, hnd, ?_, ?_, rfl⟩
  · unfold get_images
    split
    · omega
    · rfl
  · exact List.sorted_insertionSort _ _
  · exact hnd.map (joinPath_injective folder)
  · rw [List.length_map]
    exact hperm.length_eq

/-- Witness for C5 on a concrete listing holding two images (one with an
upper-case extension) and one non-image file. -/
theorem C5_image_discovery_witness :
    get_images "oms-images" ["b.PNG", "a.jpg", "notes.txt"] =
      Except.ok ((sortNames (["b.PNG", "a.jpg", "notes.txt"].filter isImageFile)).map
        (joinPath "oms-images")) ∧
    List.Sorted (fun a b => strLe a b = true)
      (sortNames (["b.PNG", "a.jpg", "notes.txt"].filter isImageFile)) ∧
    (sortNames (["b.PNG", "a.jpg", "notes.txt"].filter isImageFile)).Perm
      (["b.PNG", "a.jpg", "notes.txt"].filter isImageFile) ∧
    (sortNames (["b.PNG", "a.jpg", "notes.txt"].filter isImageFile)).Nodup ∧
    ((sortNames (["b.PNG", "a.jpg", "notes.txt"].filter isImageFile)).map
      (joinPath "oms-images")).Nodup ∧
    ((sortNames (["b.PNG", "a.jpg", "notes.txt"].filter isImageFile)).map
      (joinPath "oms-images")).length
      = (["b.PNG", "a.jpg", "notes.txt"].filter isImageFile).length ∧
    get_images "oms-images" ["b.PNG", "a.jpg", "notes.txt"]
      = get_images "oms-images" ["b.PNG", "a.jpg", "notes.txt"] :=
  C5_image_discovery "oms-images" ["b.PNG", "a.jpg", "notes.txt"]
    (by decide) (by decide)

/-! ## Transition progress facts -/

/-- The drawn progress never exceeds 1. -/
theorem transitionProgress_le_one (start dur t : ℚ) :
    transitionProgress start dur t ≤ 1 :=
  min_le_right _ _

/-- Progress is monotone in the clock sample when the duration is positive. -/
theorem transitionProgress_mono {dur : ℚ} (hdur : 0 < dur) (start : ℚ)
    {t u : ℚ} (h : t ≤ u) :
    transitionProgress start dur t ≤ transitionProgress start dur u := by
  unfold transitionProgress
  have hx : (t - start) / dur ≤ (u - start) / dur := by
    apply div_le_div_of_nonneg_right _ hdur.le
    linarith
  exact min_le_min hx le_rfl

/-- Every drawn progress value is the progress of one of the clock samples. -/
theorem mem_transitionFrames {start dur p : ℚ} :
    ∀ {l : List ℚ}, p ∈ transitionFrames start dur l →
      ∃ t ∈ l, p = transitionProgress start dur t := by
  intro l
  induction l with
  | nil => intro h; simp [transitionFrames] at h
  | cons t ts ih =>
    intro h
    simp only [transitionFrames] at h
    split at h
    · simp only [List.mem_singleton] at h
      exact ⟨t, by simp, h⟩
    · rcases List.mem_cons.mp h with h | h
      · exact ⟨t, by simp, h⟩
      · rcases ih h with ⟨u, hu, hp⟩
        exact ⟨u, by simp [hu], hp⟩

/-- Monotone clock samples give a monotonically non-decreasing sequence of
drawn progress values. -/
theorem sorted_transitionFrames {start dur : ℚ} (hdur : 0 < dur) :
    ∀ {l : List ℚ}, List.Sorted (fun a b : ℚ => a ≤ b) l →
      List.Sorted (fun a b : ℚ => a ≤ b) (transitionFrames start dur l) := by
  intro l
  induction l with
  | nil => intro _; simp [transitionFrames]
  | cons t ts ih =>
    intro hs
    rcases List.sorted_cons.mp hs with ⟨hhead, htail⟩
    simp only [transitionFrames]
    split
    · simp
    · rw [List.sorted_cons]
      refine ⟨?_, ih htail⟩
      intro q hq
      rcases mem_transitionFrames hq with ⟨u, hu, rfl⟩
      exact transitionProgress_mono hdur start (hhead u hu)

/-- When some sample reaches the deadline, the loop draws the value 1 exactly
once and that draw is the last frame of the phase. -/
theorem transitionFrames_terminal {start dur : ℚ} (hdur : 0 < dur) :
    ∀ {l : List ℚ}, (∃ t ∈ l, start + dur ≤ t) →
      (transitionFrames start dur l).count 1 = 1 ∧
      (transitionFrames start dur l).getLast? = some 1 := by
  intro l
  induction l with
  | nil => intro h; simp at h
  | cons t ts ih =>
    intro hex
    simp only [transitionFrames]
    split
    · rename_i h1
      have hone : transitionProgress start dur t = 1 :=
        le_antisymm (transitionProgress_le_one start dur t) h1
      rw [hone]
      exact ⟨by simp, rfl⟩
    · rename_i h1
      push_neg at h1
      have hnot : ¬ (start + dur ≤ t) := by
        intro hge
        have hx : (1 : ℚ) ≤ (t - start) / dur := (one_le_div hdur).mpr (by linarith)
        have hpe : transitionProgress start dur t = 1 := min_eq_right hx
        rw [hpe] at h1
        exact absurd rfl (ne_of_lt h1)
      have hex₂ : ∃ u ∈ ts, start + dur ≤ u := by
        rcases hex with ⟨u, hu, hle⟩
        rcases List.mem_cons.mp hu with rfl | hmem
        · exact absurd hle hnot
        · exact ⟨u, hmem, hle⟩
      rcases ih hex₂ with ⟨hcount, hlast⟩
      have hne1 : transitionProgress start dur t ≠ 1 := ne_of_lt h1
      constructor
      · rw [List.count_cons]
        simp [hne1, hcount]
      · match hrest : transitionFrames start dur ts with
        | [] => rw [hrest] at hlast; simp at hlast
        | b :: bs =>
          rw [hrest] at hlast
          rw [List.getLast?_cons_cons]
          exact hlast

/-- Progress of a sample at or past the phase entry equals the spec's
doubly-clamped form: the lower clamp at 0 is redundant. -/
theorem transitionFrames_eq_spec {start dur : ℚ} (hdur : 0 < dur) :
    ∀ {l : List ℚ}, (∀ t ∈ l, start ≤ t) →
      transitionFrames start dur l = specClampFrames start dur l := by
  intro l
  induction l with
  | nil => intro _; rfl
  | cons t ts ih =>
    intro hst
    have h0 : 0 ≤ (t - start) / dur :=
      div_nonneg (by linarith [hst t (by simp)]) hdur.le
    have hcp : clampProgress start dur t = transitionProgress start dur t := by
      unfold clampProgress transitionProgress
      exact max_eq_right (le_min h0 zero_le_one)
    simp only [transitionFrames, specClampFrames, hcp]
    split
    · rfl
    · rw [ih (fun u hu => hst u (by simp [hu]))]

/-- C2: within a Transitioning phase whose entry sample precedes every frame
sample, the drawn progress equals the spec's clamp(elapsed /
transitionDuration, 0, 1); with non-decreasing samples the drawn values are
monotonically non-decreasing, never exceed 1, and once a sample reaches the
deadline the value 1 is drawn exactly once, as the last frame before the
phase ends. -/
theorem C2_transition_progress (start dur : ℚ) (samples : List ℚ)
    (hdur : 0 < dur)
    (hentry : ∀ t ∈ samples, start ≤ t)
    (hmono : List.Sorted (fun a b : ℚ => a ≤ b) samples) :
    transitionFrames start dur samples = specClampFrames start dur samples ∧
    List.Sorted (fun a b : ℚ => a ≤ b) (transitionFrames start dur samples) ∧
    (∀ p ∈ transitionFrames start dur samples, p ≤ 1) ∧
    ((∃ t ∈ samples, start + dur ≤ t) →
      (transitionFrames start dur samples).count 1 = 1 ∧
      (transitionFrames start dur samples).getLast? = some 1) := by
  refine ⟨transitionFrames_eq_spec hdur hentry,
    sorted_transitionFrames hdur hmono, ?_,
    fun hex => transitionFrames_terminal hdur hex⟩
  intro p hp
  rcases mem_transitionFrames hp with ⟨u, _, rfl⟩
  exact transitionProgress_le_one start dur u

/-- Witness for C2 with duration 1.5 and samples at 0, 1, 2 seconds: the
drawn progress sequence is 0, 2/3, 1, and 1 is drawn exactly once, last. -/
theorem C2_transition_progress_witness :
    transitionFrames 0 (3 / 2) [0, 1, 2] = [0, 2 / 3, 1] ∧
    (transitionFrames 0 (3 / 2) [0, 1, 2]).count 1 = 1 ∧
    (transitionFrames 0 (3 / 2) [0, 1, 2]).getLast? = some 1 := by
  have h := C2_transition_progress 0 (3 / 2) [0, 1, 2] (by norm_num)
    (by intro t ht; fin_cases ht <;> norm_num) (by decide)
  refine ⟨?_, h.2.2.2 ⟨2, by simp, by norm_num⟩⟩
  simp [transitionFrames, transitionProgress]
  norm_num

/-! ## Frame-rate report -/

/-- C9 counterexample: with duration 1.5, phase entry at clock 0 and a single
frame sampled at clock 2, the transition takes 2 − 0 = 2 seconds of clock
time and tallies one frame, yet the reported value is 1 / 1.5 = 2/3, not the
frame count divided by the time the transition took (1 / 2).  The code
divides the tally by the configured transition duration (line 173), not by
the measured time. -/
theorem C9_fps_counterexample :
    transitionFrames 0 (3 / 2) [2] = [1] ∧
    (transitionReport 0 (3 / 2) [2]).1 = 1 ∧
    (transitionReport 0 (3 / 2) [2]).2
      ≠ ((transitionReport 0 (3 / 2) [2]).1 : ℚ) / (2 - 0) := by
  have hf : transitionFrames 0 (3 / 2) [2] = [1] := by
    simp [transitionFrames, transitionProgress]
    norm_num
  refine ⟨hf, ?_, ?_⟩
  · simp [transitionReport, hf]
  · simp only [transitionReport, hf]
    norm_num

/-- C9 amended: the frame count is tallied only over Transitioning-phase
draws — hold-phase frames are excluded — and when the phase ends the value
reported to standard output is that tally divided by the configured
transition duration (not by the measured time the transition took). -/
theorem C9_fps_amended (holdStart pause transStart dur : ℚ)
    (holdSamples transSamples : List ℚ) :
    (cycleDraws holdStart pause transStart dur holdSamples transSamples).2.1
      = (transitionFrames transStart dur transSamples).length ∧
    (cycleDraws holdStart pause transStart dur holdSamples transSamples).2.2
      = ((transitionFrames transStart dur transSamples).length : ℚ) / dur ∧
    (cycleDraws holdStart pause transStart dur holdSamples transSamples).1
      = holdFrames holdStart pause holdSamples
        ++ transitionFrames transStart dur transSamples ∧
    (cycleDraws holdStart pause transStart dur holdSamples transSamples).2.1
      = (cycleDraws holdStart pause transStart dur holdSamples transSamples).1.length
        - (holdFrames holdStart pause holdSamples).length := by
  refine ⟨rfl, rfl, rfl, ?_⟩
  simp only [cycleDraws, transitionReport, List.length_append]
  omega

/-! ## Program lifecycle facts -/

/-- Events of cycle k rank between 3k and 3k + 2. -/
theorem rank_bounds_of_mem_cycleEvents {e : GlEvent} {k h t : Nat}
    (he : e ∈ cycleEvents k h t) :
    3 * k ≤ e.rank ∧ e.rank ≤ 3 * k + 2 := by
  unfold cycleEvents at he
  rcases List.mem_append.mp he with he | he
  · rcases List.mem_cons.mp he with rfl | he
    · simp only [GlEvent.rank]
      omega
    · rcases List.mem_append.mp he with he | he <;>
        rw [(List.mem_replicate.mp he).2] <;> simp only [GlEvent.rank] <;> omega
  · rw [List.mem_singleton.mp he]
    simp only [GlEvent.rank]
    omega

/-- Events of the first c cycles rank below 3c. -/
theorem rank_lt_of_mem_runEvents {e : GlEvent} {h t : Nat → Nat} :
    ∀ {c : Nat}, e ∈ runEvents h t c → e.rank < 3 * c := by
  intro c
  induction c with
  | zero => intro he; simp [runEvents] at he
  | succ c ih =>
    intro he
    rcases List.mem_append.mp he with he | he
    · have := ih he
      omega
    · have := (rank_bounds_of_mem_cycleEvents he).2
      omega

/-- A replicated element list is pairwise under any reflexive-at-it
relation. -/
theorem pairwise_replicate_self {α : Type} {R : α → α → Prop} {a : α}
    (h : R a a) : ∀ n, List.Pairwise R (List.replicate n a) := by
  intro n
  induction n with
  | zero => simp
  | succ n ih =>
    rw [List.replicate_succ]
    rw [List.pairwise_cons]
    exact ⟨fun b hb => (List.mem_replicate.mp hb).2 ▸ h, ih⟩

/-- Within one cycle the events are ordered compile, draws, destroy. -/
theorem pairwise_rank_cycleEvents (k h t : Nat) :
    List.Pairwise (fun a b => GlEvent.rank a ≤ GlEvent.rank b)
      (cycleEvents k h t) := by
  unfold cycleEvents
  rw [List.pairwise_append]
  refine ⟨?_, by simp, ?_⟩
  · rw [List.pairwise_cons]
    constructor
    · intro b hb
      rcases List.mem_append.mp hb with hb | hb <;>
        rw [(List.mem_replicate.mp hb).2] <;> simp only [GlEvent.rank] <;> omega
    · rw [List.pairwise_append]
      refine ⟨@pairwise_replicate_self GlEvent
          (fun a b => GlEvent.rank a ≤ GlEvent.rank b) _ le_rfl h,
        @pairwise_replicate_self GlEvent
          (fun a b => GlEvent.rank a ≤ GlEvent.rank b) _ le_rfl t, ?_⟩
      intro a ha b hb
      rw [(List.mem_replicate.mp ha).2, (List.mem_replicate.mp hb).2]
  · intro a ha b hb
    rw [List.mem_singleton.mp hb]
    rcases List.mem_cons.mp ha with rfl | ha
    · simp only [GlEvent.rank]
      omega
    · rcases List.mem_append.mp ha with ha | ha <;>
        rw [(List.mem_replicate.mp ha).2] <;> simp only [GlEvent.rank] <;> omega

/-- The full trace is ordered by rank: events of earlier cycles come first,
and within a cycle compile precedes the draws, which precede destroy. -/
theorem pairwise_rank_runEvents (h t : Nat → Nat) :
    ∀ c, List.Pairwise (fun a b => GlEvent.rank a ≤ GlEvent.rank b)
      (runEvents h t c) := by
  intro c
  induction c with
  | zero => simp [runEvents]
  | succ c ih =>
    rw [runEvents, List.pairwise_append]
    refine ⟨ih, pairwise_rank_cycleEvents c (h c) (t c), ?_⟩
    intro a ha b hb
    have h1 := rank_lt_of_mem_runEvents ha
    have h2 := (rank_bounds_of_mem_cycleEvents hb).1
    omega

/-- Cycle k's events contain one destroy for cycle k and none for others. -/
theorem count_destroy_cycleEvents (k j h t : Nat) :
    (cycleEvents k h t).count (GlEvent.destroyProgram j)
      = if j = k then 1 else 0 := by
  unfold cycleEvents
  rw [List.count_append]
  rw [List.count_cons]
  rw [List.count_append]
  rw [List.count_replicate, List.count_replicate]
  by_cases hjk : j = k <;> simp [hjk] <;> omega

/-- Cycle k's events contain one compile for cycle k and none for others. -/
theorem count_compile_cycleEvents (k j h t : Nat) :
    (cycleEvents k h t).count (GlEvent.compileProgram j)
      = if j = k then 1 else 0 := by
  unfold cycleEvents
  rw [List.count_append]
  rw [List.count_cons]
  rw [List.count_append]
  rw [List.count_replicate, List.count_replicate]
  by_cases hjk : j = k <;> simp [hjk] <;> omega

/-- The first c cycles contain exactly one destroy per executed cycle. -/
theorem count_destroy_runEvents (h t : Nat → Nat) (k : Nat) :
    ∀ c, (runEvents h t c).count (GlEvent.destroyProgram k)
      = if k < c then 1 else 0 := by
  intro c
  induction c with
  | zero => simp [runEvents]
  | succ c ih =>
    rw [runEvents, List.count_append, ih, count_destroy_cycleEvents]
    rcases Nat.lt_trichotomy k c with h1 | h1 | h1
    · rw [if_pos h1, if_neg (by omega), if_pos (by omega)]
    · subst h1
      rw [if_neg (by omega), if_pos rfl, if_pos (by omega)]
    · rw [if_neg (by omega), if_neg (by omega), if_neg (by omega)]

/-- The first c cycles contain exactly one compile per executed cycle. -/
theorem count_compile_runEvents (h t : Nat → Nat) (k : Nat) :
    ∀ c, (runEvents h t c).count (GlEvent.compileProgram k)
      = if k < c then 1 else 0 := by
  intro c
  induction c with
  | zero => simp [runEvents]
  | succ c ih =>
    rw [runEvents, List.count_append, ih, count_compile_cycleEvents]
    rcases Nat.lt_trichotomy k c with h1 | h1 | h1
    · rw [if_pos h1, if_neg (by omega), if_pos (by omega)]
    · subst h1
      rw [if_neg (by omega), if_pos rfl, if_pos (by omega)]
    · rw [if_neg (by omega), if_neg (by omega), if_neg (by omega)]

/-- C3: in any run of c executed cycles, every cycle k < c compiles exactly
one program and destroys it exactly once; every draw call using cycle k's
program precedes its destroy, and the destroy precedes the next cycle's
compile — so at most one program is live at any time. -/
theorem C3_program_lifecycle (h t : Nat → Nat) (c k : Nat) (hk : k < c) :
    (runEvents h t c).count (GlEvent.compileProgram k) = 1 ∧
    (runEvents h t c).count (GlEvent.destroyProgram k) = 1 ∧
    (∀ i j : Fin (runEvents h t c).length,
      (runEvents h t c).get i = GlEvent.destroyProgram k →
      (runEvents h t c).get j = GlEvent.drawCall k → j < i) ∧
    (∀ i j : Fin (runEvents h t c).length,
      (runEvents h t c).get i = GlEvent.destroyProgram k →
      (runEvents h t c).get j = GlEvent.compileProgram (k + 1) → i < j) := by
  have hp := List.pairwise_iff_get.mp (pairwise_rank_runEvents h t c)
  refine ⟨by rw [count_compile_runEvents]; simp [hk],
    by rw [count_destroy_runEvents]; simp [hk], ?_, ?_⟩
  · intro i j hi hj
    rcases lt_trichotomy i j with hij | hij | hij
    · have hr := hp i j hij
      rw [hi, hj] at hr
      simp only [GlEvent.rank] at hr
      omega
    · rw [hij, hj] at hi
      simp at hi
    · exact hij
  · intro i j hi hj
    rcases lt_trichotomy i j with hij | hij | hij
    · exact hij
    · rw [hij, hj] at hi
      simp at hi
    · have hr := hp j i hij
      rw [hi, hj] at hr
      simp only [GlEvent.rank] at hr
      omega

/-- Witness for C3 with one hold frame and one transition frame per cycle,
two executed cycles, checking cycle 0's program. -/
theorem C3_program_lifecycle_witness :
    (runEvents (fun _ => 1) (fun _ => 1) 2).count (GlEvent.compileProgram 0) = 1 ∧
    (runEvents (fun _ => 1) (fun _ => 1) 2).count (GlEvent.destroyProgram 0) = 1 :=
  ⟨(C3_program_lifecycle (fun _ => 1) (fun _ => 1) 2 0 (by decide)).1,
   (C3_program_lifecycle (fun _ => 1) (fun _ => 1) 2 0 (by decide)).2.1⟩

/-- C10: whatever the hold and transition frame counts of the final cycle c
are — a window-close signal observed mid-hold or mid-transition only makes
them smaller, possibly zero, since both inner loops re-check the signal
every frame — the cycle's compile happens exactly once, its destroy happens
exactly once, and that destroy is the very last GL event before the render
loop exits: cancellation never leaks the active program. -/
theorem C10_cancellation_no_leak (h t : Nat → Nat) (c : Nat) :
    (runEvents h t (c + 1)).count (GlEvent.compileProgram c) = 1 ∧
    (runEvents h t (c + 1)).count (GlEvent.destroyProgram c) = 1 ∧
    (runEvents h t (c + 1)).getLast? = some (GlEvent.destroyProgram c) := by
  refine ⟨by rw [count_compile_runEvents]; simp,
    by rw [count_destroy_runEvents]; simp, ?_⟩
  rw [runEvents]
  unfold cycleEvents
  rw [← List.append_assoc]
  exact List.getLast?_concat _

end Slideshow
